import Mathlib

/-!
Verification of the natural-language specification of `convert.py`, a tool
that batch-rewrites the origin remote URL of git repositories found under a
directory tree.  The definitions below are a shallow embedding of the
functions in `src/convert.py` (`run_command`, `find_git_repos`,
`get_new_url`, and the processing loop of `main`), together with a model of
the Python string operations they use and of the fragment of Python's `re`
module that the tool exercises.  External effects (subprocess execution,
console output, the filesystem) are made explicit: each external command's
result is an input, and every command issued and message printed is recorded
in the output.
-/

set_option maxHeartbeats 1000000

namespace Convert

/-! ### Python string primitives

These model the exact semantics of the Python `str` operations used by
`convert.py`: `strip()`, `rstrip('/')`, `endswith('/')`, the `in` substring
test, `replace`, `splitlines()` and `split(" ", 1)`. -/

/-- Whitespace characters recognised by Python's `str.strip()`
(the ASCII subset, which covers all strings the tool handles). -/
def pyIsSpace (c : Char) : Bool :=
  c == ' ' || c == '\t' || c == '\n' || c == '\r' || c == '\x0b' || c == '\x0c'

/-- Model of Python `s.strip()`: remove leading and trailing whitespace. -/
def pyStrip (s : String) : String :=
  ⟨((s.data.dropWhile pyIsSpace).reverse.dropWhile pyIsSpace).reverse⟩

/-- Model of Python `s.rstrip('/')`: remove every trailing `'/'`. -/
def pyRstripSlash (s : String) : String :=
  ⟨(s.data.reverse.dropWhile (fun c => c == '/')).reverse⟩

/-- Model of Python `s.endswith('/')`. -/
def pyEndswithSlash (s : String) : Bool :=
  match s.data.reverse with
  | [] => false
  | c :: _ => c == '/'

/-- Whether `needle` is a prefix of `hay` (on character lists). -/
def listStartsWith : List Char → List Char → Bool
  | [], _ => true
  | _ :: _, [] => false
  | a :: as, b :: bs => a == b && listStartsWith as bs

/-- Whether `needle` occurs as a contiguous substring of `hay`. -/
def listContainsSub (needle : List Char) : List Char → Bool
  | [] => needle.isEmpty
  | h :: t => listStartsWith needle (h :: t) || listContainsSub needle t

/-- Model of the Python substring test `needle in hay`.
Note that in Python the empty string is contained in every string. -/
def pyContains (needle hay : String) : Bool :=
  listContainsSub needle.data hay.data

/-- Left-to-right non-overlapping replacement scan (the case of a non-empty
needle of Python's `str.replace`).  The fuel is the length of the scanned
list, which suffices because each step consumes at least one character. -/
def listReplaceAux (find repl : List Char) : Nat → List Char → List Char
  | _, [] => []
  | 0, s => s
  | fuel + 1, c :: rest =>
    if listStartsWith find (c :: rest) then
      repl ++ listReplaceAux find repl fuel (rest.drop (find.length - 1))
    else
      c :: listReplaceAux find repl fuel rest

/-- Model of Python `s.replace(find, repl)`: replaces every non-overlapping
occurrence of `find`, scanning left to right.  When `find` is empty, Python
inserts `repl` before every character and at the end. -/
def pyReplace (s find repl : String) : String :=
  if find.data.isEmpty then
    ⟨repl.data ++ s.data.foldr (fun c acc => c :: (repl.data ++ acc)) []⟩
  else
    ⟨listReplaceAux find.data repl.data s.data.length s.data⟩

/-- Splitting scan for `pySplitlines`: cuts at `\n`, `\r` and `\r\n`. -/
def splitLinesAux : List Char → List Char → List (List Char)
  | acc, [] => [acc.reverse]
  | acc, '\r' :: '\n' :: rest => acc.reverse :: splitLinesAux [] rest
  | acc, '\n' :: rest => acc.reverse :: splitLinesAux [] rest
  | acc, '\r' :: rest => acc.reverse :: splitLinesAux [] rest
  | acc, c :: rest => splitLinesAux (c :: acc) rest

/-- Model of Python `s.splitlines()` (restricted to the `\n`, `\r`, `\r\n`
terminators that subprocess output can contain): a trailing terminator does
not produce a final empty line, and the empty string has no lines. -/
def pySplitlines (s : String) : List String :=
  match s.data with
  | [] => []
  | l =>
    let parts := splitLinesAux [] l
    let parts :=
      match parts.reverse with
      | [] :: rest => rest.reverse
      | _ => parts
    parts.map (⟨·⟩)

/-- Splitting scan for `pySplitFirstSpace`. -/
def splitFirstSpaceAux (acc : List Char) : List Char → Option (List Char × List Char)
  | [] => none
  | ' ' :: rest => some (acc.reverse, rest)
  | c :: rest => splitFirstSpaceAux (c :: acc) rest

/-- Model of Python `line.split(" ", 1)` followed by the length-2 check of
`main`: `none` when the line has no space (Python returns a one-element
list, which the code skips with `continue`); otherwise the text before the
first space and everything after it. -/
def pySplitFirstSpace (s : String) : Option (String × String) :=
  (splitFirstSpaceAux [] s.data).map (fun p => (⟨p.1⟩, ⟨p.2⟩))

/-! ### Model of Python's `re` collaborator

Modelled from the spec: `convert.py` delegates regex matching to Python's
`re` module, an external library ("collaborators treated as black boxes" in
the spec).  The model below implements the fragment the spec and the tool's
own examples exercise: literal characters, escaped punctuation, the `\d`
class, `.`, capturing groups, and the greedy quantifiers `*`, `+`, `?`;
substitution is find-leftmost-match-then-substitute-all with `\1`-style
backreferences in the replacement.  A pattern outside this fragment is
mapped to a failed parse, which plays the role of `re.error` (Python's
`re.error` on an invalid pattern is raised at first use and caught inside
`get_new_url`). -/

/-- Quantifier attached to a regex element (Python's greedy `*`, `+`, `?`,
or no quantifier). -/
inductive RQuant where
  | one
  | star
  | plus
  | opt
deriving DecidableEq, Repr

/-- Regex element: a literal character, the `\d` class, `.`, or a numbered
capturing group over a sub-pattern (a list of element/quantifier pairs). -/
inductive RNode where
  | lit : Char → RNode
  | digit : RNode
  | dot : RNode
  | group : Nat → List (RNode × RQuant) → RNode

/-- A parsed pattern: a sequence of quantified elements. -/
abbrev RPat := List (RNode × RQuant)

/-- Read an optional quantifier after an element. -/
def parseQuant : List Char → RQuant × List Char
  | '*' :: rest => (RQuant.star, rest)
  | '+' :: rest => (RQuant.plus, rest)
  | '?' :: rest => (RQuant.opt, rest)
  | s => (RQuant.one, s)

/-- Recursive-descent pattern reader.  `g` counts the capturing groups
opened so far (Python numbers groups by order of the opening parenthesis).
Returns the parsed items, the unconsumed input (for a closing parenthesis)
and the updated group count; `none` models `re.error` (for example a lone
`(`, a quantifier with nothing to repeat, or a trailing backslash) as well
as constructs outside the modelled fragment. -/
def parseSeq : Nat → List Char → Nat → Option (RPat × List Char × Nat)
  | 0, _, _ => none
  | fuel + 1, s, g =>
    match s with
    | [] => some ([], [], g)
    | ')' :: _ => some ([], s, g)
    | '(' :: rest =>
      match parseSeq fuel rest (g + 1) with
      | some (inner, ')' :: rest2, g2) =>
        let q := parseQuant rest2
        match parseSeq fuel q.2 g2 with
        | some (items, rest3, g3) => some ((RNode.group (g + 1) inner, q.1) :: items, rest3, g3)
        | none => none
      | _ => none
    | '\\' :: c :: rest =>
      if c = 'd' then
        let q := parseQuant rest
        match parseSeq fuel q.2 g with
        | some (items, rest2, g2) => some ((RNode.digit, q.1) :: items, rest2, g2)
        | none => none
      else if c.isAlphanum then none
      else
        let q := parseQuant rest
        match parseSeq fuel q.2 g with
        | some (items, rest2, g2) => some ((RNode.lit c, q.1) :: items, rest2, g2)
        | none => none
    | ['\\'] => none
    | c :: rest =>
      if c = '*' ∨ c = '+' ∨ c = '?' ∨ c = '|' ∨ c = '[' ∨ c = ']' ∨ c = '{' ∨ c = '}' ∨
          c = '^' ∨ c = '$' then none
      else
        let node := if c = '.' then RNode.dot else RNode.lit c
        let q := parseQuant rest
        match parseSeq fuel q.2 g with
        | some (items, rest2, g2) => some ((node, q.1) :: items, rest2, g2)
        | none => none

/-- Compile a pattern string: the parsed items and the number of capturing
groups, or `none` for `re.error`.  Leftover input (for example a stray `)`)
is an error. -/
def parsePattern (p : String) : Option (RPat × Nat) :=
  match parseSeq (p.length + 2) p.data 0 with
  | some (items, [], g) => some (items, g)
  | _ => none

/-- Captured groups of a match: `(index, start, stop)` triples, most recent
first. -/
abbrev Grp := List (Nat × Nat × Nat)

/-- A pending matching job of the backtracking matcher: match one element,
match an element under a Kleene star, match one quantified element, or match
a sequence of quantified elements. -/
inductive MJob where
  | node : RNode → MJob
  | star : RNode → MJob
  | item : RNode × RQuant → MJob
  | seq : RPat → MJob

/-- Continuation-passing backtracking matcher, greedy like Python: a star
tries to consume one more occurrence before falling back to its
continuation, `?` tries with the element first.  Group captures are recorded
when the group's sub-pattern completes.  The fuel only bounds the recursion
and is never exhausted when called through `reSearch`/`reSub` with
`reFuel`. -/
def matchRun (fuel : Nat) (j : MJob) (s : List Char) (pos : Nat) (g : Grp)
    (k : Nat → Grp → Option (Nat × Grp)) : Option (Nat × Grp) :=
  match fuel with
  | 0 => none
  | fuel + 1 =>
    match j with
    | MJob.node e =>
      match e with
      | RNode.lit c =>
        match s.get? pos with
        | some c2 => if c2 = c then k (pos + 1) g else none
        | none => none
      | RNode.digit =>
        match s.get? pos with
        | some c2 => if c2.isDigit then k (pos + 1) g else none
        | none => none
      | RNode.dot =>
        match s.get? pos with
        | some c2 => if c2 = '\n' then none else k (pos + 1) g
        | none => none
      | RNode.group idx inner =>
        matchRun fuel (MJob.seq inner) s pos g (fun pos2 g2 => k pos2 ((idx, pos, pos2) :: g2))
    | MJob.star e =>
      match matchRun fuel (MJob.node e) s pos g
          (fun pos2 g2 =>
            if pos < pos2 then matchRun fuel (MJob.star e) s pos2 g2 k else k pos2 g2) with
      | some r => some r
      | none => k pos g
    | MJob.item it =>
      match it.2 with
      | RQuant.one => matchRun fuel (MJob.node it.1) s pos g k
      | RQuant.opt =>
        match matchRun fuel (MJob.node it.1) s pos g k with
        | some r => some r
        | none => k pos g
      | RQuant.star => matchRun fuel (MJob.star it.1) s pos g k
      | RQuant.plus =>
        matchRun fuel (MJob.node it.1) s pos g
          (fun pos2 g2 => matchRun fuel (MJob.star it.1) s pos2 g2 k)
    | MJob.seq items =>
      match items with
      | [] => k pos g
      | it :: rest =>
        matchRun fuel (MJob.item it) s pos g
          (fun pos2 g2 => matchRun fuel (MJob.seq rest) s pos2 g2 k)

/-- Match a sequence of quantified elements at position `pos`. -/
def matchSeq (fuel : Nat) (items : RPat) (s : List Char) (pos : Nat) (g : Grp)
    (k : Nat → Grp → Option (Nat × Grp)) : Option (Nat × Grp) :=
  matchRun fuel (MJob.seq items) s pos g k

/-- Try an anchored match of `p` at positions `pos`, `pos+1`, … and return
the leftmost match as `(start, stop, groups)`, like `re.search`. -/
def searchFrom (tries : Nat) (p : RPat) (s : List Char) (pos fuel : Nat) :
    Option (Nat × Nat × Grp) :=
  match tries with
  | 0 => none
  | tries + 1 =>
    match matchSeq fuel p s pos [] (fun e g => some (e, g)) with
    | some r => some (pos, r.1, r.2)
    | none => if pos < s.length then searchFrom tries p s (pos + 1) fuel else none

/-- Matching fuel that is comfortably sufficient for the backtracking
matcher on `s` (each consumed character or pattern item costs a bounded
number of fuel units). -/
def reFuel (s pat : String) : Nat :=
  8 * (s.length + pat.length) + 64

/-- Model of `re.search(p, s)`: leftmost match (all positions up to and
including the end of the string are tried). -/
def reSearch (p : RPat) (s : String) (fuel : Nat) : Option (Nat × Nat × Grp) :=
  searchFrom (s.length + 1) p s.data 0 fuel

/-- Text captured by group `idx`, or empty when the group did not take part
in the match (Python ≥ 3.5 substitutes the empty string in `re.sub`). -/
def groupSlice (s : List Char) (g : Grp) (idx : Nat) : List Char :=
  match g.find? (fun t => t.1 == idx) with
  | some t => (s.drop t.2.1).take (t.2.2 - t.2.1)
  | none => []

/-- Expand a replacement template against the groups of one match: `\1`…`\9`
are backreferences, `\\` is a literal backslash.  `none` models the
`re.error` raised for a reference to a group the pattern does not have or a
trailing backslash. -/
def expandRepl (ng : Nat) (s : List Char) (g : Grp) : List Char → Option (List Char)
  | [] => some []
  | ['\\'] => none
  | '\\' :: c :: rest =>
    if c.isDigit ∧ c ≠ '0' then
      if c.toNat - '0'.toNat ≤ ng then
        (expandRepl ng s g rest).map (fun t => groupSlice s g (c.toNat - '0'.toNat) ++ t)
      else none
    else if c = '\\' then (expandRepl ng s g rest).map (fun t => '\\' :: t)
    else (expandRepl ng s g rest).map (fun t => '\\' :: c :: t)
  | c :: rest => (expandRepl ng s g rest).map (fun t => c :: t)

/-- Substitution scan of `re.sub`: at each position try an anchored match;
on a match emit the expanded replacement and continue after it (after an
empty match, copy one character), otherwise copy the character.  An empty
match at the end of the string is also replaced, as in Python ≥ 3.7. -/
def subFrom (p : RPat) (ng : Nat) (repl s : List Char) (fuel : Nat) :
    Nat → Nat → Option (List Char)
  | 0, pos => some (s.drop pos)
  | n + 1, pos =>
    match matchSeq fuel p s pos [] (fun e g => some (e, g)) with
    | some r =>
      match expandRepl ng s r.2 repl with
      | none => none
      | some rep =>
        if pos < r.1 then
          match subFrom p ng repl s fuel n r.1 with
          | some t => some (rep ++ t)
          | none => none
        else
          match s.get? pos with
          | some c =>
            match subFrom p ng repl s fuel n (pos + 1) with
            | some t => some (rep ++ c :: t)
            | none => none
          | none => some rep
    | none =>
      match s.get? pos with
      | some c =>
        match subFrom p ng repl s fuel n (pos + 1) with
        | some t => some (c :: t)
        | none => none
      | none => some []

/-- Model of `re.sub(p, repl, s)`: replace every non-overlapping match.
`none` models an `re.error` raised while expanding the replacement. -/
def reSub (p : RPat) (ng : Nat) (repl s : String) (fuel : Nat) : Option String :=
  (subFrom p ng repl.data s.data fuel (s.length + 2) 0).map (⟨·⟩)

/-! ### Console messages and external commands -/

/-- Console messages printed by the processing code, one constructor per
`console.print` site that the claims observe (decorations dropped). -/
inductive Ev where
  | regexError
  | skipOrigin (err : String)
  | currentOrigin (url : String)
  | newOrigin (url : String)
  | setFailed (err : String)
  | fetchWarn (err : String)
  | originSuccess
  | skipUnchanged
  | checkingModules
  | updatingSub (key old new : String)
  | syncing
deriving DecidableEq, Repr

/-- External git commands issued by the processing loop of `main`, in the
order the code runs them. -/
inductive Cmd where
  | getUrl
  | setUrl (url : String)
  | fetch
  | modList
  | cfgModules (key url : String)
  | cfgLocal (key url : String)
  | modSync
deriving DecidableEq, Repr

/-! ### `get_new_url` (convert.py lines 102-123) -/

/-- Embedding of `get_new_url` together with the console messages it prints:
in regex mode, a caught `re.error` prints a message and yields `None`; a
successful search applies `re.sub`.  In literal mode, a verbatim substring
match replaces all occurrences; otherwise, when `find` ends in `/` and
`find.rstrip('/')` is non-empty and occurs, the stripped form is replaced. -/
def get_new_url_out (current_url find replace : String) (regex : Bool) :
    Option String × List Ev :=
  if regex then
    match parsePattern find with
    | none => (none, [Ev.regexError])
    | some pn =>
      if (reSearch pn.1 current_url (reFuel current_url find)).isSome then
        match reSub pn.1 pn.2 replace current_url (reFuel current_url find) with
        | some r => (some r, [])
        | none => (none, [Ev.regexError])
      else (none, [])
  else
    if pyContains find current_url then
      (some (pyReplace current_url find replace), [])
    else
      if pyEndswithSlash find && pyContains (pyRstripSlash find) current_url then
        if pyRstripSlash find = "" then (none, [])
        else (some (pyReplace current_url (pyRstripSlash find) replace), [])
      else (none, [])

/-- The value computed by `get_new_url`: the new URL, or `None` when no
change is needed or no match is found. -/
def get_new_url (current_url find replace : String) (regex : Bool) : Option String :=
  (get_new_url_out current_url find replace regex).1

/-! ### `run_command` (convert.py lines 39-58) -/

/-- Possible outcomes of executing one external command: a completed process
(return code and decoded output; the `chardet`-based `detect_decode` of the
source is modelled as the identity on already-decoded text), a missing
executable (`FileNotFoundError`), or any other exception. -/
inductive ExecOutcome where
  | ok (code : Int) (stdout stderr : String)
  | fileNotFound
  | exn (msg : String)
deriving DecidableEq, Repr

/-- Embedding of `run_command`: always returns a `(returncode, stdout,
stderr)` triple.  A missing executable becomes return code 127, any other
exception becomes return code 1 with the message in stderr. -/
def run_command (cmd0 : String) (o : ExecOutcome) : Int × String × String :=
  match o with
  | ExecOutcome.ok c so se => (c, so, se)
  | ExecOutcome.fileNotFound => (127, "", "Command not found: " ++ cmd0)
  | ExecOutcome.exn m => (1, "", m)

/-! ### The processing loop of `main` (convert.py lines 226-295)

One repository's interaction with git is an element of `RepoWorld`: the
outcome of each external command the loop may run for it, plus whether a
`.gitmodules` file exists.  The embedding returns the commands issued, the
messages printed and the counter increments. -/

/-- The external world of one repository: the result of each git command the
loop can issue for it, and whether `.gitmodules` exists. -/
structure RepoWorld where
  getUrlO : ExecOutcome
  setUrlO : ExecOutcome
  fetchO : ExecOutcome
  hasGitmodules : Bool
  modListO : ExecOutcome
deriving DecidableEq, Repr

/-- Observable outcome of processing one repository: commands issued,
messages printed, and the increments of the success/fail/skip counters. -/
structure RepoOutcome where
  cmds : List Cmd
  events : List Ev
  succ : Nat
  fail : Nat
  skip : Nat
deriving DecidableEq, Repr

/-- Origin sub-task (convert.py lines 230-261): read the origin URL; on
failure print a skip message and stop; otherwise compute the new URL and, if
it is truthy and differs (Python's `if new_url and new_url != current_url`),
set it and fetch, counting a fetch failure as a success with a warning. -/
def originStep (find replace : String) (regex : Bool) (w : RepoWorld) : RepoOutcome :=
  let res := run_command "git" w.getUrlO
  if res.1 = 0 then
    let current := pyStrip res.2.1
    let nu := get_new_url current find replace regex
    let baseEv := Ev.currentOrigin current :: (get_new_url_out current find replace regex).2
    match nu with
    | some newUrl =>
      if newUrl ≠ "" ∧ newUrl ≠ current then
        let sres := run_command "git" w.setUrlO
        if sres.1 = 0 then
          let fres := run_command "git" w.fetchO
          if fres.1 = 0 then
            ⟨[Cmd.getUrl, Cmd.setUrl newUrl, Cmd.fetch],
              baseEv ++ [Ev.newOrigin newUrl, Ev.originSuccess], 1, 0, 0⟩
          else
            ⟨[Cmd.getUrl, Cmd.setUrl newUrl, Cmd.fetch],
              baseEv ++ [Ev.newOrigin newUrl, Ev.fetchWarn (pyStrip fres.2.2)], 1, 0, 0⟩
        else
          ⟨[Cmd.getUrl, Cmd.setUrl newUrl],
            baseEv ++ [Ev.newOrigin newUrl, Ev.setFailed (pyStrip sres.2.2)], 0, 1, 0⟩
      else ⟨[Cmd.getUrl], baseEv ++ [Ev.skipUnchanged], 0, 0, 1⟩
    | none => ⟨[Cmd.getUrl], baseEv ++ [Ev.skipUnchanged], 0, 0, 1⟩
  else ⟨[Cmd.getUrl], [Ev.skipOrigin (pyStrip res.2.2)], 0, 0, 0⟩

/-- One line of the `.gitmodules` URL listing (convert.py lines 273-290):
split on the first space; skip lines without one; rewrite the URL and, when
the rewrite is truthy and differs, write it to `.gitmodules` and to the
local git config. -/
def subLineStep (find replace : String) (regex : Bool) (line : String) :
    List Cmd × List Ev × Bool :=
  match pySplitFirstSpace line with
  | none => ([], [], false)
  | some kv =>
    let nu := get_new_url kv.2 find replace regex
    let msgs := (get_new_url_out kv.2 find replace regex).2
    match nu with
    | some s =>
      if s ≠ "" ∧ s ≠ kv.2 then
        ([Cmd.cfgModules kv.1 s, Cmd.cfgLocal kv.1 s],
          msgs ++ [Ev.updatingSub kv.1 kv.2 s], true)
      else ([], msgs, false)
    | none => ([], msgs, false)

/-- Fold of `subLineStep` over the listing's lines, accumulating the
commands, the messages and the `submodule_changes` flag. -/
def subLines (find replace : String) (regex : Bool) : List String → List Cmd × List Ev × Bool
  | [] => ([], [], false)
  | l :: rest =>
    let a := subLineStep find replace regex l
    let b := subLines find replace regex rest
    (a.1 ++ b.1, a.2.1 ++ b.2.1, a.2.2 || b.2.2)

/-- Submodule sub-task (convert.py lines 263-295), a function of the
`.gitmodules` presence flag and of the listing command's outcome only: when
`.gitmodules` exists, list the submodule URLs; when the listing succeeds,
process each line; when any URL changed, run `git submodule sync` once. -/
def subStep (find replace : String) (regex : Bool) (hasGm : Bool) (mlO : ExecOutcome) :
    RepoOutcome :=
  if hasGm then
    let res := run_command "git" mlO
    if res.1 = 0 then
      let a := subLines find replace regex (pySplitlines (pyStrip res.2.1))
      if a.2.2 then
        ⟨Cmd.modList :: a.1 ++ [Cmd.modSync], Ev.checkingModules :: a.2.1 ++ [Ev.syncing], 0, 0, 0⟩
      else ⟨Cmd.modList :: a.1, Ev.checkingModules :: a.2.1, 0, 0, 0⟩
    else ⟨[Cmd.modList], [Ev.checkingModules], 0, 0, 0⟩
  else ⟨[], [], 0, 0, 0⟩

/-- Processing of one repository: the origin sub-task followed by the
submodule sub-task; the two are independent (the submodule part reads only
`hasGitmodules` and the listing outcome). -/
def processRepo (find replace : String) (regex : Bool) (w : RepoWorld) : RepoOutcome :=
  let o := originStep find replace regex w
  let s := subStep find replace regex w.hasGitmodules w.modListO
  ⟨o.cmds ++ s.cmds, o.events ++ s.events, o.succ + s.succ, o.fail + s.fail, o.skip + s.skip⟩

/-- The batch loop over the selected repositories: each repository is
processed in turn, unconditionally. -/
def processAll (find replace : String) (regex : Bool) (ws : List RepoWorld) :
    List RepoOutcome :=
  ws.map (processRepo find replace regex)

/-- The `.gitmodules` config writes the loop performs for a listing's lines:
for each line that splits as `key url` and whose rewrite is truthy and
differs, one write to `.gitmodules` and one to the local config. -/
def changedWrites (find replace : String) (regex : Bool) : List String → List Cmd
  | [] => []
  | l :: rest =>
    (match pySplitFirstSpace l with
      | none => []
      | some kv =>
        match get_new_url kv.2 find replace regex with
        | some s =>
          if s ≠ "" ∧ s ≠ kv.2 then [Cmd.cfgModules kv.1 s, Cmd.cfgLocal kv.1 s] else []
        | none => []) ++ changedWrites find replace regex rest

/-- The `key url` pairs parsed from the listing's lines. -/
def parsedPairs : List String → List (String × String)
  | [] => []
  | l :: rest =>
    (match pySplitFirstSpace l with
      | none => []
      | some kv => [kv]) ++ parsedPairs rest

/-! ### Fallback repository discovery (convert.py lines 90-100 and 157-164)

The `os.walk` fallback of `find_git_repos` over a directory tree, and the
normalisation/deduplication `main` applies to the discovered list. -/

/-- A directory tree: a name, subdirectories and file names. -/
inductive FsTree where
  | dir (name : String) (subdirs : List FsTree) (files : List String)

/-- The name of a directory. -/
def FsTree.dname : FsTree → String
  | FsTree.dir n _ _ => n

/-- Whether a directory directly contains a `.git` entry, as a subdirectory
or as a file. -/
def hasGitEntry : FsTree → Bool
  | FsTree.dir _ ds fs => ds.any (fun c => c.dname == ".git") || fs.contains ".git"

mutual

/-- Embedding of the `os.walk` fallback loop: a directory with a `.git`
subdirectory or a `.git` file is recorded (as its path of names below the
scan root), and the walk does not descend into a `.git` subdirectory
(`dirnames.remove(".git")`). -/
def walkRepos : FsTree → List String → List (List String)
  | FsTree.dir _ ds fs, pre =>
    (if ds.any (fun c => c.dname == ".git") || fs.contains ".git" then [pre] else []) ++
      walkChildren ds pre

/-- Walk each subdirectory in turn, skipping any named `.git`. -/
def walkChildren : List FsTree → List String → List (List String)
  | [], _ => []
  | c :: rest, pre =>
    (if c.dname == ".git" then [] else walkRepos c (pre ++ [c.dname])) ++ walkChildren rest pre

end

/-- Locate the directory at a path of names below the root of a tree. -/
def lookupPath : FsTree → List String → Option FsTree
  | t, [] => some t
  | FsTree.dir _ ds _, n :: rest =>
    match ds.find? (fun c => c.dname == n) with
    | some c => lookupPath c rest
    | none => none

/-- Whether the directory at path `q` exists and directly contains a `.git`
entry. -/
def pathHasGit (t : FsTree) (q : List String) : Bool :=
  match lookupPath t q with
  | some sub => hasGitEntry sub
  | none => false

mutual

/-- Well-formedness of a tree as a filesystem: sibling directory names are
distinct, recursively. -/
def wellFormedB : FsTree → Bool
  | FsTree.dir _ ds _ => decide ((ds.map FsTree.dname).Nodup) && wellFormedChildren ds

/-- Well-formedness of every tree in a list. -/
def wellFormedChildren : List FsTree → Bool
  | [] => true
  | c :: rest => wellFormedB c && wellFormedChildren rest

end

/-- Embedding of the normalisation in `main` (lines 157-164): resolve each
discovered path to absolute form (modelled as prefixing the resolved scan
root) and deduplicate (`sorted(list(set(...)))`; the sort order itself is
not modelled). -/
def normalizeRepos (rootAbs : List String) (repos : List (List String)) :
    List (List String) :=
  (repos.map (fun p => rootAbs ++ p)).dedup

/-! ### Concrete inputs used by witnesses and counterexamples -/

/-- The parse of the spec's example pattern `server-(\d+)`. -/
def pat42 : RPat :=
  [(RNode.lit 's', RQuant.one), (RNode.lit 'e', RQuant.one), (RNode.lit 'r', RQuant.one),
    (RNode.lit 'v', RQuant.one), (RNode.lit 'e', RQuant.one), (RNode.lit 'r', RQuant.one),
    (RNode.lit '-', RQuant.one), (RNode.group 1 [(RNode.digit, RQuant.plus)], RQuant.one)]

/-- A repository whose origin URL reads successfully and that has no
`.gitmodules` file. -/
def wOriginA : RepoWorld :=
  ⟨ExecOutcome.ok 0 "https://github.com/a/a" "", ExecOutcome.ok 0 "" "",
    ExecOutcome.ok 0 "" "", false, ExecOutcome.ok 0 "" ""⟩

/-- A second such repository with a different origin URL. -/
def wOriginB : RepoWorld :=
  ⟨ExecOutcome.ok 0 "https://github.com/b/b" "", ExecOutcome.ok 0 "" "",
    ExecOutcome.ok 0 "" "", false, ExecOutcome.ok 0 "" ""⟩

/-- A repository whose set-url succeeds but whose fetch fails. -/
def wFetchFail : RepoWorld :=
  ⟨ExecOutcome.ok 0 "https://github.com/u/r" "", ExecOutcome.ok 0 "" "",
    ExecOutcome.ok 1 "" "boom", false, ExecOutcome.ok 0 "" ""⟩

/-- A repository with no origin remote but with a `.gitmodules` file listing
one submodule URL. -/
def wNoOrigin : RepoWorld :=
  ⟨ExecOutcome.ok 1 "" "fatal: no origin", ExecOutcome.ok 0 "" "",
    ExecOutcome.ok 0 "" "", true,
    ExecOutcome.ok 0 "submodule.m.url https://github.com/x/y" ""⟩

/-- A repository whose single submodule URL is exactly the find string, so
that replacing it by the empty string yields an empty rewrite. -/
def wEmptyRewrite : RepoWorld :=
  ⟨ExecOutcome.ok 1 "" "no origin", ExecOutcome.ok 0 "" "",
    ExecOutcome.ok 0 "" "", true, ExecOutcome.ok 0 "submodule.m.url a" ""⟩

/-- A repository with two submodule URLs of which exactly one matches the
find string. -/
def wTwoSubs : RepoWorld :=
  ⟨ExecOutcome.ok 1 "" "no origin", ExecOutcome.ok 0 "" "",
    ExecOutcome.ok 0 "" "", true,
    ExecOutcome.ok 0 "submodule.m.url https://github.com/x/y\nsubmodule.n.url other" ""⟩

/-- A tree in which a directory containing a `.git` entry sits inside a
pruned `.git` subtree: `root/.git/hooks/inner/.git`. -/
def tNested : FsTree :=
  FsTree.dir "root"
    [FsTree.dir ".git"
      [FsTree.dir "hooks" [FsTree.dir "inner" [FsTree.dir ".git" [] []] []] []] []] []

/-- A tree with one repository marked by a `.git` file: `root/a/.git`. -/
def tGitFile : FsTree :=
  FsTree.dir "root" [FsTree.dir "a" [] [".git"]] []

/-! ## Theorems -/

/-! ### Helper lemmas -/

/-- In literal mode, when neither `find` nor (via the trailing-slash
heuristic) its slash-stripped form matches, `get_new_url` returns `None`. -/
theorem literal_no_match_none (cur f r : String)
    (h1 : pyContains f cur = false)
    (h2 : (pyEndswithSlash f && pyContains (pyRstripSlash f) cur) = false) :
    get_new_url cur f r false = none := by
  simp [get_new_url, get_new_url_out, h1, h2]

/-- The submodule sub-task never touches the origin counters. -/
theorem subStep_counters (f r : String) (rx hg : Bool) (ml : ExecOutcome) :
    (subStep f r rx hg ml).succ = 0 ∧ (subStep f r rx hg ml).fail = 0 ∧
      (subStep f r rx hg ml).skip = 0 := by
  unfold subStep
  dsimp only
  repeat' split
  all_goals exact ⟨rfl, rfl, rfl⟩

/-! ### C2 — "no change" signalling of `get_new_url` -/

/-- C2, counterexample.  The claim states that whenever the substitution
result is textually identical to the current URL — for example when find and
replace are the same string and find occurs in the URL — `get_new_url`
returns null rather than the unchanged string.  At `current = "abc"`,
`find = replace = "a"`, the code returns the unchanged string `some "abc"`,
not `none`: the early-return `current_url.replace(find, replace)` is taken
whenever `find` occurs, with no comparison against the input. -/
theorem unchanged_result_returned_cex :
    get_new_url "abc" "a" "a" false = some "abc"
    ∧ (get_new_url "abc" "a" "a" false).isSome = true := by
  decide

/-- C2 (amended): when no match is found `get_new_url` returns `none`
(literal mode: `find` absent and the trailing-slash heuristic inapplicable
or its stripped form empty; regex mode: invalid pattern or failed search);
but when a match is found and the substitution result is textually identical
to the input, the function returns the unchanged string (`some current`),
not null — the caller (`main`) treats both cases as a skip, via its
`new_url and new_url != current_url` test. -/
theorem no_change_signaling :
    (∀ cur f r, pyContains f cur = false →
      (pyEndswithSlash f && pyContains (pyRstripSlash f) cur) = false →
      get_new_url cur f r false = none)
    ∧ (∀ cur f r, pyContains f cur = false → pyRstripSlash f = "" →
      get_new_url cur f r false = none)
    ∧ (∀ cur f r, parsePattern f = none → get_new_url cur f r true = none)
    ∧ (∀ cur f r pn, parsePattern f = some pn →
      reSearch pn.1 cur (reFuel cur f) = none → get_new_url cur f r true = none)
    ∧ (∀ cur f r, pyContains f cur = true → pyReplace cur f r = cur →
      get_new_url cur f r false = some cur)
    ∧ (∀ f r rx w, (run_command "git" w.getUrlO).1 = 0 →
      get_new_url (pyStrip (run_command "git" w.getUrlO).2.1) f r rx =
        some (pyStrip (run_command "git" w.getUrlO).2.1) →
      (processRepo f r rx w).skip = 1) := by
  refine ⟨fun cur f r h1 h2 => literal_no_match_none cur f r h1 h2,
    fun cur f r h1 h2 => ?_, fun cur f r h => ?_, fun cur f r pn h1 h2 => ?_,
    fun cur f r h1 h2 => ?_, fun f r rx w h0 hnu => ?_⟩
  · simp [get_new_url, get_new_url_out, h1, h2]
  · simp [get_new_url, get_new_url_out, h]
  · simp [get_new_url, get_new_url_out, h1, h2]
  · simp [get_new_url, get_new_url_out, h1, h2]
  · have hsub : (subStep f r rx w.hasGitmodules w.modListO).skip = 0 :=
      (subStep_counters f r rx w.hasGitmodules w.modListO).2.2
    have horig : (originStep f r rx w).skip = 1 := by
      unfold originStep
      dsimp only
      rw [if_pos h0, hnu]
      simp
    simp [processRepo, horig, hsub]

/-- C2, witness for the amended claim: with `find = replace = "a"` on
`current = "aa"` the (unchanged) string is returned and the processing loop
counts the repository as a skip. -/
theorem no_change_signaling_witness :
    (run_command "git" wOriginA.getUrlO).1 = 0
    ∧ get_new_url "https://github.com/a/a" "https://github.com/a/a"
        "https://github.com/a/a" false = some "https://github.com/a/a"
    ∧ (processRepo "https://github.com/a/a" "https://github.com/a/a" false wOriginA).skip = 1 :=
  ⟨rfl, by decide,
    no_change_signaling.2.2.2.2.2 "https://github.com/a/a" "https://github.com/a/a" false
      wOriginA rfl (by decide)⟩

/-! ### C3 — the trailing-slash heuristic -/

/-- C3, counterexample.  The claim defines the stripped form as `find` with
the single trailing slash removed.  The code uses `find.rstrip('/')`, which
removes every trailing slash: at `current = "ab/c"`, `find = "b//"`,
`replace = "X"`, the claim's stripped form `"b/"` is non-empty and occurs in
the URL, so the claim predicts `some "aXc"` (every `"b/"` replaced), but the
code strips both slashes, matches `"b"` and returns `some "aX/c"`. -/
theorem trailing_slash_multi_cex :
    get_new_url "ab/c" "b//" "X" false = some "aX/c"
    ∧ pyReplace "ab/c" "b/" "X" = "aXc"
    ∧ pyEndswithSlash "b//" = true
    ∧ pyContains "b//" "ab/c" = false
    ∧ pyContains "b/" "ab/c" = true := by
  decide

/-- C3 (amended): in literal mode, for every `find` ending in `/` that does
not occur verbatim in the URL, if `find` with ALL trailing slashes removed
(`find.rstrip('/')`) is non-empty and occurs in the URL, the result replaces
every occurrence of that all-stripped form with `replace`.  The spec's own
example is unaffected: `current = "https://github.com/org/repo"`,
`find = "org/repo/"` matches on `"org/repo"`. -/
theorem trailing_slash_heuristic :
    ∀ cur f r, pyEndswithSlash f = true → pyContains f cur = false →
      pyRstripSlash f ≠ "" → pyContains (pyRstripSlash f) cur = true →
      get_new_url cur f r false = some (pyReplace cur (pyRstripSlash f) r) := by
  intro cur f r h1 h2 h3 h4
  simp [get_new_url, get_new_url_out, h1, h2, h3, h4]

/-- C3, witness: the spec's example, with `replace = "R"`. -/
theorem trailing_slash_heuristic_witness :
    pyEndswithSlash "org/repo/" = true
    ∧ pyContains "org/repo/" "https://github.com/org/repo" = false
    ∧ get_new_url "https://github.com/org/repo" "org/repo/" "R" false =
        some "https://github.com/R" :=
  ⟨by decide, by decide,
    (trailing_slash_heuristic "https://github.com/org/repo" "org/repo/" "R"
      (by decide) (by decide) (by decide) (by decide)).trans (by decide)⟩

/-! ### C4 — regex mode -/

/-- C4: in regex mode, if the pattern matches nowhere in the URL the
function returns null; if it matches, the result is `re.sub` applied to the
whole URL (every match substituted, with `\1`-style backreferences resolved
against the captured groups), and on the spec's example
`find = "server-(\d+)"`, `replace = "host-\1"` maps `"ssh://server-42/x"`
to `"ssh://host-42/x"`. -/
theorem regex_mode_semantics :
    (∀ cur f r pn, parsePattern f = some pn →
      reSearch pn.1 cur (reFuel cur f) = none → get_new_url cur f r true = none)
    ∧ (∀ cur f r pn out, parsePattern f = some pn →
      (reSearch pn.1 cur (reFuel cur f)).isSome = true →
      reSub pn.1 pn.2 r cur (reFuel cur f) = some out →
      get_new_url cur f r true = some out)
    ∧ get_new_url "ssh://server-42/x" "server-(\\d+)" "host-\\1" true =
        some "ssh://host-42/x" := by
  refine ⟨fun cur f r pn h1 h2 => ?_, fun cur f r pn out h1 h2 h3 => ?_, by decide⟩
  · simp [get_new_url, get_new_url_out, h1, h2]
  · simp [get_new_url, get_new_url_out, h1, h2, h3]

/-- C4, witness: the spec's example, with the parsed pattern, the successful
search and the substitution made explicit. -/
theorem regex_mode_semantics_witness :
    parsePattern "server-(\\d+)" = some (pat42, 1)
    ∧ (reSearch pat42 "ssh://server-42/x"
        (reFuel "ssh://server-42/x" "server-(\\d+)")).isSome = true
    ∧ get_new_url "ssh://server-42/x" "server-(\\d+)" "host-\\1" true =
        some "ssh://host-42/x" :=
  ⟨rfl, rfl,
    regex_mode_semantics.2.1 "ssh://server-42/x" "server-(\\d+)" "host-\\1" (pat42, 1)
      "ssh://host-42/x" rfl rfl rfl⟩

/-! ### C5 — literal mode replaces every occurrence; idempotence -/

/-- C5, counterexample.  The claim asserts that a second application
produces no further change only if `replace` does not itself contain `find`.
At `current = find = replace = "a"` the first application returns `some "a"`
and a second application to that computed URL again returns `some "a"` — no
further change — although `replace = "a"` does contain `find = "a"`,
refuting the "only if". -/
theorem literal_idempotence_cex :
    get_new_url "a" "a" "a" false = some "a"
    ∧ pyContains "a" "a" = true := by
  decide

/-- C5 (amended): in literal mode, whenever `find` occurs in the URL the
computed URL is Python's `current.replace(find, replace)` — every
(non-overlapping, left-to-right) occurrence replaced — and a second
application with the same spec returns null (no further change) whenever
neither `find` nor, via the trailing-slash heuristic, `find.rstrip('/')`
occurs in the computed URL.  (Containment of `find` in `replace` is neither
necessary nor sufficient for idempotence: boundary effects can re-form or
preserve occurrences.) -/
theorem literal_replace_all :
    ∀ cur f r, pyContains f cur = true →
      get_new_url cur f r false = some (pyReplace cur f r)
      ∧ (pyContains f (pyReplace cur f r) = false →
        (pyEndswithSlash f && pyContains (pyRstripSlash f) (pyReplace cur f r)) = false →
        get_new_url (pyReplace cur f r) f r false = none) := by
  intro cur f r h
  refine ⟨by simp [get_new_url, get_new_url_out, h], fun h1 h2 => ?_⟩
  exact literal_no_match_none (pyReplace cur f r) f r h1 h2

/-- C5, witness: rewriting `github.com` to `gitlab.com` in a URL replaces
the occurrence, and a second application is a no-op. -/
theorem literal_replace_all_witness :
    pyContains "github.com" "https://github.com/u/r" = true
    ∧ get_new_url "https://github.com/u/r" "github.com" "gitlab.com" false =
        some "https://gitlab.com/u/r"
    ∧ get_new_url "https://gitlab.com/u/r" "github.com" "gitlab.com" false = none := by
  have h := literal_replace_all "https://github.com/u/r" "github.com" "gitlab.com" (by decide)
  have e : pyReplace "https://github.com/u/r" "github.com" "gitlab.com" =
      "https://gitlab.com/u/r" := by decide
  exact ⟨by decide, h.1.trans (by rw [e]), by rw [← e]; exact h.2 (by decide) (by decide)⟩

/-! ### Helper lemmas about the orchestrator -/

/-- Every command of the origin sub-task is `getUrl`, a `setUrl` or
`fetch`. -/
theorem originStep_cmds_shape (f r : String) (rx : Bool) (w : RepoWorld) :
    ∀ c ∈ (originStep f r rx w).cmds,
      c = Cmd.getUrl ∨ (∃ u, c = Cmd.setUrl u) ∨ c = Cmd.fetch := by
  intro c hc
  unfold originStep at hc
  dsimp only at hc
  repeat' split at hc
  all_goals try simp only [List.mem_cons, List.mem_singleton, List.not_mem_nil, or_false] at hc
  all_goals rcases hc with rfl | rfl | rfl <;> simp

/-- Every command of the submodule sub-task is the listing, a config write
or the sync. -/
theorem subLineStep_cmds_shape (f r : String) (rx : Bool) (l : String) :
    ∀ c ∈ (subLineStep f r rx l).1,
      (∃ k u, c = Cmd.cfgModules k u) ∨ (∃ k u, c = Cmd.cfgLocal k u) := by
  intro c hc
  unfold subLineStep at hc
  split at hc
  · simp at hc
  · dsimp only at hc
    split at hc
    · split at hc
      · simp only [List.mem_cons, List.mem_singleton, List.not_mem_nil, or_false] at hc
        rcases hc with rfl | rfl
        · exact Or.inl ⟨_, _, rfl⟩
        · exact Or.inr ⟨_, _, rfl⟩
      · simp at hc
    · simp at hc

/-- Commands accumulated over the listing's lines are config writes. -/
theorem subLines_cmds_shape (f r : String) (rx : Bool) (ls : List String) :
    ∀ c ∈ (subLines f r rx ls).1,
      (∃ k u, c = Cmd.cfgModules k u) ∨ (∃ k u, c = Cmd.cfgLocal k u) := by
  induction ls with
  | nil => intro c hc; simp [subLines] at hc
  | cons l rest ih =>
    intro c hc
    simp only [subLines] at hc
    rcases List.mem_append.1 hc with h | h
    · exact subLineStep_cmds_shape f r rx l c h
    · exact ih c h

/-- Every command of the submodule sub-task is the listing, a config write
or the sync. -/
theorem subStep_cmds_shape (f r : String) (rx hg : Bool) (ml : ExecOutcome) :
    ∀ c ∈ (subStep f r rx hg ml).cmds,
      c = Cmd.modList ∨ c = Cmd.modSync ∨
        (∃ k u, c = Cmd.cfgModules k u) ∨ (∃ k u, c = Cmd.cfgLocal k u) := by
  intro c hc
  unfold subStep at hc
  dsimp only at hc
  split at hc <;> [skip; simp_all]
  split at hc <;> [skip; simp_all]
  split at hc
  · simp only [List.cons_append, List.mem_cons] at hc
    rcases hc with rfl | hc
    · exact Or.inl rfl
    · rcases List.mem_append.1 hc with h | h
      · exact Or.inr (Or.inr (subLines_cmds_shape f r rx _ c h))
      · simp only [List.mem_singleton] at h
        exact Or.inr (Or.inl h)
  · simp only [List.mem_cons] at hc
    rcases hc with rfl | hc
    · exact Or.inl rfl
    · exact Or.inr (Or.inr (subLines_cmds_shape f r rx _ c hc))

/-- The submodule sub-task never issues a `getUrl`, `setUrl` or `fetch`. -/
theorem subStep_no_origin_cmds (f r : String) (rx hg : Bool) (ml : ExecOutcome) :
    (∀ u, Cmd.setUrl u ∉ (subStep f r rx hg ml).cmds) ∧
      Cmd.fetch ∉ (subStep f r rx hg ml).cmds ∧
      Cmd.getUrl ∉ (subStep f r rx hg ml).cmds := by
  refine ⟨fun u hu => ?_, fun hu => ?_, fun hu => ?_⟩ <;>
    rcases subStep_cmds_shape f r rx hg ml _ hu with h | h | ⟨k, v, h⟩ | ⟨k, v, h⟩ <;>
      simp_all

/-- The origin sub-task on a repository whose URL reads successfully, whose
rewrite is truthy and different, and whose set-url succeeds. -/
theorem originStep_set_ok (f r : String) (rx : Bool) (w : RepoWorld) (nu : String)
    (h0 : (run_command "git" w.getUrlO).1 = 0)
    (hnu : get_new_url (pyStrip (run_command "git" w.getUrlO).2.1) f r rx = some nu)
    (hne : nu ≠ "") (hnc : nu ≠ pyStrip (run_command "git" w.getUrlO).2.1)
    (hset : (run_command "git" w.setUrlO).1 = 0) :
    originStep f r rx w =
      if (run_command "git" w.fetchO).1 = 0 then
        ⟨[Cmd.getUrl, Cmd.setUrl nu, Cmd.fetch],
          Ev.currentOrigin (pyStrip (run_command "git" w.getUrlO).2.1) ::
            (get_new_url_out (pyStrip (run_command "git" w.getUrlO).2.1) f r rx).2 ++
            [Ev.newOrigin nu, Ev.originSuccess], 1, 0, 0⟩
      else
        ⟨[Cmd.getUrl, Cmd.setUrl nu, Cmd.fetch],
          Ev.currentOrigin (pyStrip (run_command "git" w.getUrlO).2.1) ::
            (get_new_url_out (pyStrip (run_command "git" w.getUrlO).2.1) f r rx).2 ++
            [Ev.newOrigin nu, Ev.fetchWarn (pyStrip (run_command "git" w.fetchO).2.2)],
          1, 0, 0⟩ := by
  unfold originStep
  dsimp only
  rw [if_pos h0, hnu]
  dsimp only
  rw [if_pos (And.intro hne hnc), if_pos hset]

/-- The origin sub-task on a repository whose URL cannot be read. -/
theorem originStep_read_fail (f r : String) (rx : Bool) (w : RepoWorld)
    (h : ¬ (run_command "git" w.getUrlO).1 = 0) :
    originStep f r rx w =
      ⟨[Cmd.getUrl], [Ev.skipOrigin (pyStrip (run_command "git" w.getUrlO).2.2)], 0, 0, 0⟩ := by
  unfold originStep
  dsimp only
  rw [if_neg h]

/-! ### C6 — a fetch failure still counts as a success, with no rollback -/

/-- C6: when reading the origin URL succeeds, the rewrite is truthy and
differs, the set-url command succeeds and the subsequent fetch fails, the
repository counts as a success (exactly as when the fetch succeeds), a
warning carrying the fetch stderr is printed, and no rollback occurs: the
set-url command is issued exactly once, with the new URL. -/
theorem fetch_failure_counts_success :
    ∀ f r rx w nu,
      (run_command "git" w.getUrlO).1 = 0 →
      get_new_url (pyStrip (run_command "git" w.getUrlO).2.1) f r rx = some nu →
      nu ≠ "" →
      nu ≠ pyStrip (run_command "git" w.getUrlO).2.1 →
      (run_command "git" w.setUrlO).1 = 0 →
      ¬ (run_command "git" w.fetchO).1 = 0 →
      (processRepo f r rx w).succ = 1
      ∧ (processRepo f r rx w).fail = 0
      ∧ (processRepo f r rx w).skip = 0
      ∧ Ev.fetchWarn (pyStrip (run_command "git" w.fetchO).2.2) ∈ (processRepo f r rx w).events
      ∧ (processRepo f r rx w).cmds.count (Cmd.setUrl nu) = 1
      ∧ (∀ u, Cmd.setUrl u ∈ (processRepo f r rx w).cmds → u = nu)
      ∧ (∀ w2 : RepoWorld, w2.getUrlO = w.getUrlO → w2.setUrlO = w.setUrlO →
          (run_command "git" w2.fetchO).1 = 0 → (processRepo f r rx w2).succ = 1) := by
  intro f r rx w nu h0 hnu hne hnc hset hfetch
  have horig := originStep_set_ok f r rx w nu h0 hnu hne hnc hset
  rw [if_neg hfetch] at horig
  have hsubc := subStep_counters f r rx w.hasGitmodules w.modListO
  have hsubn := subStep_no_origin_cmds f r rx w.hasGitmodules w.modListO
  refine ⟨?_, ?_, ?_, ?_, ?_, ?_, ?_⟩
  · simp [processRepo, horig, hsubc.1]
  · simp [processRepo, horig, hsubc.2.1]
  · simp [processRepo, horig, hsubc.2.2]
  · simp [processRepo, horig]
  · have hz : (subStep f r rx w.hasGitmodules w.modListO).cmds.count (Cmd.setUrl nu) = 0 :=
      List.count_eq_zero.2 (hsubn.1 nu)
    simp [processRepo, horig, List.count_append, hz, List.count_cons]
  · intro u hu
    simp only [processRepo, horig] at hu
    rcases List.mem_append.1 hu with h | h
    · simp only [List.mem_cons, List.mem_singleton, List.not_mem_nil, or_false] at h
      rcases h with h | h | h <;> simp_all
    · exact absurd h (hsubn.1 u)
  · intro w2 hg hs hf
    have hnu2 : get_new_url (pyStrip (run_command "git" w2.getUrlO).2.1) f r rx = some nu := by
      rw [hg]; exact hnu
    have h02 : (run_command "git" w2.getUrlO).1 = 0 := by rw [hg]; exact h0
    have hnc2 : nu ≠ pyStrip (run_command "git" w2.getUrlO).2.1 := by rw [hg]; exact hnc
    have hset2 : (run_command "git" w2.setUrlO).1 = 0 := by rw [hs]; exact hset
    have horig2 := originStep_set_ok f r rx w2 nu h02 hnu2 hne hnc2 hset2
    rw [if_pos hf] at horig2
    simp [processRepo, horig2, (subStep_counters f r rx w2.hasGitmodules w2.modListO).1]

/-- C6, witness: a concrete repository whose fetch fails after a successful
set-url is counted as a success with a warning. -/
theorem fetch_failure_counts_success_witness :
    (run_command "git" wFetchFail.setUrlO).1 = 0
    ∧ (run_command "git" wFetchFail.fetchO).1 = 1
    ∧ (processRepo "github.com" "gitlab.com" false wFetchFail).succ = 1
    ∧ Ev.fetchWarn "boom" ∈ (processRepo "github.com" "gitlab.com" false wFetchFail).events := by
  have h := fetch_failure_counts_success "github.com" "gitlab.com" false wFetchFail
    "https://gitlab.com/u/r" rfl (by decide) (by decide) (by decide) rfl (by decide)
  refine ⟨rfl, rfl, h.1, ?_⟩
  have e : pyStrip (run_command "git" wFetchFail.fetchO).2.2 = "boom" := by decide
  exact e ▸ h.2.2.2.1

/-! ### Helper lemmas about the submodule listing -/

/-- The commands of `subLines` are exactly `changedWrites`, and the
`submodule_changes` flag is set exactly when some write happened. -/
theorem subLines_eq_changedWrites (f r : String) (rx : Bool) (ls : List String) :
    (subLines f r rx ls).1 = changedWrites f r rx ls
    ∧ ((subLines f r rx ls).2.2 = true ↔ changedWrites f r rx ls ≠ []) := by
  induction ls with
  | nil => exact ⟨rfl, by simp [subLines, changedWrites]⟩
  | cons l rest ih =>
    have hhead : (subLineStep f r rx l).1 =
        (match pySplitFirstSpace l with
          | none => []
          | some kv =>
            match get_new_url kv.2 f r rx with
            | some s =>
              if s ≠ "" ∧ s ≠ kv.2 then [Cmd.cfgModules kv.1 s, Cmd.cfgLocal kv.1 s] else []
            | none => [])
        ∧ ((subLineStep f r rx l).2.2 = true ↔
          (match pySplitFirstSpace l with
            | none => ([] : List Cmd)
            | some kv =>
              match get_new_url kv.2 f r rx with
              | some s =>
                if s ≠ "" ∧ s ≠ kv.2 then [Cmd.cfgModules kv.1 s, Cmd.cfgLocal kv.1 s] else []
              | none => []) ≠ []) := by
      unfold subLineStep
      rcases hsp : pySplitFirstSpace l with _ | kv <;> dsimp only
      · exact ⟨rfl, by simp⟩
      · rcases hnu : get_new_url kv.2 f r rx with _ | s <;> dsimp only
        · exact ⟨rfl, by simp⟩
        · split
          · exact ⟨rfl, by simp⟩
          · exact ⟨rfl, by simp⟩
    refine ⟨?_, ?_⟩
    · simp only [subLines, changedWrites, hhead.1, ih.1]
    · simp only [subLines, changedWrites, Bool.or_eq_true, ih.2, hhead.2]
      constructor
      · rintro (h | h) <;> intro hcon <;> rcases List.append_eq_nil.1 hcon with ⟨h1, h2⟩
        · exact h h1
        · exact h h2
      · intro h
        by_contra hcon
        push_neg at hcon
        exact h (by rw [hcon.1, hcon.2]; rfl)

/-- Every element of `changedWrites` is a config write. -/
theorem changedWrites_shape (f r : String) (rx : Bool) (ls : List String) :
    ∀ c ∈ changedWrites f r rx ls,
      (∃ k u, c = Cmd.cfgModules k u) ∨ (∃ k u, c = Cmd.cfgLocal k u) := by
  induction ls with
  | nil => intro c hc; simp [changedWrites] at hc
  | cons l rest ih =>
    intro c hc
    unfold changedWrites at hc
    rcases List.mem_append.1 hc with h | h
    · rcases hsp : pySplitFirstSpace l with _ | kv
      · rw [hsp] at h
        simp at h
      · rw [hsp] at h
        dsimp only at h
        rcases hnu : get_new_url kv.2 f r rx with _ | s
        · rw [hnu] at h
          simp at h
        · rw [hnu] at h
          dsimp only at h
          split at h
          · simp only [List.mem_cons, List.mem_singleton, List.not_mem_nil, or_false] at h
            rcases h with rfl | rfl
            · exact Or.inl ⟨_, _, rfl⟩
            · exact Or.inr ⟨_, _, rfl⟩
          · simp at h
    · exact ih c h

/-- A pair parsed from the listing whose rewrite is truthy and differs
contributes both of its config writes to `changedWrites`. -/
theorem changedWrites_mem (f r : String) (rx : Bool) (ls : List String) (k u s : String)
    (hp : (k, u) ∈ parsedPairs ls) (hnu : get_new_url u f r rx = some s)
    (hne : s ≠ "") (hnc : s ≠ u) :
    Cmd.cfgModules k s ∈ changedWrites f r rx ls
    ∧ Cmd.cfgLocal k s ∈ changedWrites f r rx ls := by
  induction ls with
  | nil => simp [parsedPairs] at hp
  | cons l rest ih =>
    unfold parsedPairs at hp
    unfold changedWrites
    rcases hsp : pySplitFirstSpace l with _ | kv
    · rw [hsp] at hp
      dsimp only at hp ⊢
      rw [List.nil_append] at hp
      exact ⟨List.mem_append.2 (Or.inr (ih hp).1), List.mem_append.2 (Or.inr (ih hp).2)⟩
    · rw [hsp] at hp
      dsimp only at hp ⊢
      rw [List.singleton_append, List.mem_cons] at hp
      rcases hp with hkv | hp
      · have hk : kv = (k, u) := hkv.symm
        subst hk
        dsimp only
        rw [hnu]
        dsimp only
        rw [if_pos (And.intro hne hnc)]
        constructor
        · exact List.mem_append.2 (Or.inl (by simp))
        · exact List.mem_append.2 (Or.inl (by simp))
      · exact ⟨List.mem_append.2 (Or.inr (ih hp).1), List.mem_append.2 (Or.inr (ih hp).2)⟩

/-- The submodule sub-task on a repository with a `.gitmodules` file and a
successful listing: the listing command, then the config writes, then — when
any URL changed — a single sync. -/
theorem subStep_cmds_eq (f r : String) (rx : Bool) (ml : ExecOutcome)
    (h : (run_command "git" ml).1 = 0) :
    (subStep f r rx true ml).cmds =
      Cmd.modList ::
        changedWrites f r rx (pySplitlines (pyStrip (run_command "git" ml).2.1)) ++
        (if changedWrites f r rx (pySplitlines (pyStrip (run_command "git" ml).2.1)) = []
          then [] else [Cmd.modSync]) := by
  unfold subStep
  dsimp only
  rw [if_pos rfl, if_pos h]
  have hcw := subLines_eq_changedWrites f r rx (pySplitlines (pyStrip (run_command "git" ml).2.1))
  split
  · rename_i hflag
    rw [if_neg (hcw.2.1 hflag)]
    simp [hcw.1]
  · rename_i hflag
    have hnil : changedWrites f r rx (pySplitlines (pyStrip (run_command "git" ml).2.1)) = [] := by
      by_contra hx
      exact hflag (hcw.2.2 hx)
    rw [if_pos hnil]
    simp [hcw.1]

/-! ### C7 — origin failure skips only the origin sub-task -/

/-- C7: when reading the origin URL fails, the origin sub-task is skipped —
a skip message carrying the stderr is printed, no set-url and no fetch is
issued, and no counter changes — while the submodule sub-task still runs
exactly as a function of the `.gitmodules` flag and the listing outcome
alone: when `.gitmodules` exists the listing is issued, and every parsed
submodule URL whose rewrite is truthy and differs is written to both
`.gitmodules` and the local config. -/
theorem origin_failure_independent_submodules :
    ∀ f r rx w, ¬ (run_command "git" w.getUrlO).1 = 0 →
      (processRepo f r rx w).cmds =
        Cmd.getUrl :: (subStep f r rx w.hasGitmodules w.modListO).cmds
      ∧ (processRepo f r rx w).events =
        Ev.skipOrigin (pyStrip (run_command "git" w.getUrlO).2.2) ::
          (subStep f r rx w.hasGitmodules w.modListO).events
      ∧ (∀ u, Cmd.setUrl u ∉ (processRepo f r rx w).cmds)
      ∧ Cmd.fetch ∉ (processRepo f r rx w).cmds
      ∧ (processRepo f r rx w).succ = 0
      ∧ (processRepo f r rx w).fail = 0
      ∧ (processRepo f r rx w).skip = 0
      ∧ (w.hasGitmodules = true → Cmd.modList ∈ (processRepo f r rx w).cmds)
      ∧ (w.hasGitmodules = true → (run_command "git" w.modListO).1 = 0 →
          ∀ k u s, (k, u) ∈ parsedPairs (pySplitlines (pyStrip (run_command "git" w.modListO).2.1)) →
            get_new_url u f r rx = some s → s ≠ "" → s ≠ u →
            Cmd.cfgModules k s ∈ (processRepo f r rx w).cmds ∧
            Cmd.cfgLocal k s ∈ (processRepo f r rx w).cmds)
      ∧ (∀ w2 : RepoWorld, w2.hasGitmodules = w.hasGitmodules → w2.modListO = w.modListO →
          subStep f r rx w2.hasGitmodules w2.modListO =
            subStep f r rx w.hasGitmodules w.modListO) := by
  intro f r rx w h0
  have horig := originStep_read_fail f r rx w h0
  have hsubn := subStep_no_origin_cmds f r rx w.hasGitmodules w.modListO
  have hsubc := subStep_counters f r rx w.hasGitmodules w.modListO
  have hcmds : (processRepo f r rx w).cmds =
      Cmd.getUrl :: (subStep f r rx w.hasGitmodules w.modListO).cmds := by
    simp [processRepo, horig]
  refine ⟨hcmds, by simp [processRepo, horig], ?_, ?_, by simp [processRepo, horig, hsubc.1],
    by simp [processRepo, horig, hsubc.2.1], by simp [processRepo, horig, hsubc.2.2],
    ?_, ?_, fun w2 hg hm => by rw [hg, hm]⟩
  · intro u hu
    rw [hcmds] at hu
    rcases List.mem_cons.1 hu with h | h
    · exact Cmd.noConfusion h
    · exact hsubn.1 u h
  · intro hu
    rw [hcmds] at hu
    rcases List.mem_cons.1 hu with h | h
    · exact Cmd.noConfusion h
    · exact hsubn.2.1 h
  · intro hg
    rw [hcmds, hg]
    refine List.mem_cons.2 (Or.inr ?_)
    unfold subStep
    dsimp only
    rw [if_pos rfl]
    split
    · split <;> simp
    · simp
  · intro hg hml k u s hp hnu hne hnc
    have hmem := changedWrites_mem f r rx
      (pySplitlines (pyStrip (run_command "git" w.modListO).2.1)) k u s hp hnu hne hnc
    rw [hcmds, hg]
    rw [subStep_cmds_eq f r rx w.modListO hml]
    constructor
    · exact List.mem_cons.2 (Or.inr (List.mem_cons.2 (Or.inr (List.mem_append.2 (Or.inl hmem.1)))))
    · exact List.mem_cons.2 (Or.inr (List.mem_cons.2 (Or.inr (List.mem_append.2 (Or.inl hmem.2)))))

/-- C7, witness: a concrete repository with no origin remote still gets its
one submodule URL rewritten in both places. -/
theorem origin_failure_independent_submodules_witness :
    (run_command "git" wNoOrigin.getUrlO).1 = 1
    ∧ Cmd.cfgModules "submodule.m.url" "https://gitlab.com/x/y" ∈
        (processRepo "github.com" "gitlab.com" false wNoOrigin).cmds
    ∧ Cmd.cfgLocal "submodule.m.url" "https://gitlab.com/x/y" ∈
        (processRepo "github.com" "gitlab.com" false wNoOrigin).cmds
    ∧ (processRepo "github.com" "gitlab.com" false wNoOrigin).succ = 0 := by
  have h := origin_failure_independent_submodules "github.com" "gitlab.com" false wNoOrigin
    (by decide)
  have hw := h.2.2.2.2.2.2.2.2.1 rfl rfl "submodule.m.url" "https://github.com/x/y"
    "https://gitlab.com/x/y" (by decide) (by decide) (by decide) (by decide)
  exact ⟨rfl, hw.1, hw.2, h.2.2.2.2.1⟩

/-! ### C8 — submodule writes go to both places; sync runs once, iff needed -/

/-- C8, counterexample.  The claim states that each submodule URL whose
rewrite differs from the original is written to both places.  With
`find = "a"`, `replace = ""` and a submodule URL `"a"`, the rewrite is the
empty string, which differs from the original — yet Python's truthiness
test `if new_sub_url and new_sub_url != url` rejects it, so no config write
and no sync is issued: the commands are just the URL read and the listing. -/
theorem empty_rewrite_not_written_cex :
    get_new_url "a" "a" "" false = some ""
    ∧ parsedPairs (pySplitlines (pyStrip (run_command "git" wEmptyRewrite.modListO).2.1)) =
        [("submodule.m.url", "a")]
    ∧ (processRepo "a" "" false wEmptyRewrite).cmds = [Cmd.getUrl, Cmd.modList] := by
  decide

/-- C8 (amended): for a repository with a `.gitmodules` file and a
successful listing, the commands issued for the submodule sub-task are the
listing, then — for each parsed submodule URL whose rewrite is non-empty
and differs from the original — a write to `.gitmodules` and a write to the
local config, then a single sync exactly when at least one URL changed (and
no sync at all when none did). -/
theorem submodule_writes_and_sync :
    ∀ f r rx w, w.hasGitmodules = true → (run_command "git" w.modListO).1 = 0 →
      (processRepo f r rx w).cmds =
        (originStep f r rx w).cmds ++
          Cmd.modList ::
            changedWrites f r rx (pySplitlines (pyStrip (run_command "git" w.modListO).2.1)) ++
            (if changedWrites f r rx (pySplitlines (pyStrip (run_command "git" w.modListO).2.1)) = []
              then [] else [Cmd.modSync])
      ∧ (∀ k u s,
          (k, u) ∈ parsedPairs (pySplitlines (pyStrip (run_command "git" w.modListO).2.1)) →
          get_new_url u f r rx = some s → s ≠ "" → s ≠ u →
          Cmd.cfgModules k s ∈ (processRepo f r rx w).cmds ∧
          Cmd.cfgLocal k s ∈ (processRepo f r rx w).cmds)
      ∧ ((processRepo f r rx w).cmds.count Cmd.modSync =
          if changedWrites f r rx (pySplitlines (pyStrip (run_command "git" w.modListO).2.1)) = []
          then 0 else 1) := by
  intro f r rx w hg hml
  have hsub := subStep_cmds_eq f r rx w.modListO hml
  have hcmds : (processRepo f r rx w).cmds =
      (originStep f r rx w).cmds ++ (subStep f r rx true w.modListO).cmds := by
    simp [processRepo, hg]
  refine ⟨by rw [hcmds, hsub, ← List.append_assoc], ?_, ?_⟩
  · intro k u s hp hnu hne hnc
    have hmem := changedWrites_mem f r rx
      (pySplitlines (pyStrip (run_command "git" w.modListO).2.1)) k u s hp hnu hne hnc
    rw [hcmds, hsub]
    constructor
    · simp [List.mem_append, List.mem_cons, hmem.1]
    · simp [List.mem_append, List.mem_cons, hmem.2]
  · rw [hcmds, hsub]
    have hor : (originStep f r rx w).cmds.count Cmd.modSync = 0 := by
      refine List.count_eq_zero.2 fun hmem => ?_
      rcases originStep_cmds_shape f r rx w _ hmem with h | ⟨u, h⟩ | h <;> simp_all
    have hcw : (changedWrites f r rx
        (pySplitlines (pyStrip (run_command "git" w.modListO).2.1))).count Cmd.modSync = 0 := by
      refine List.count_eq_zero.2 fun hmem => ?_
      rcases changedWrites_shape f r rx _ _ hmem with ⟨k, u, h⟩ | ⟨k, u, h⟩ <;> simp_all
    rw [List.count_append, hor, Nat.zero_add, List.count_append, List.count_cons, hcw]
    split
    · rename_i hx
      exact absurd hx (by decide)
    · split <;> simp

/-- C8, witness: of two submodule URLs exactly one changes; it is written to
both places and sync runs exactly once. -/
theorem submodule_writes_and_sync_witness :
    wTwoSubs.hasGitmodules = true
    ∧ (run_command "git" wTwoSubs.modListO).1 = 0
    ∧ (processRepo "github.com" "gitlab.com" false wTwoSubs).cmds.count Cmd.modSync = 1
    ∧ Cmd.cfgModules "submodule.m.url" "https://gitlab.com/x/y" ∈
        (processRepo "github.com" "gitlab.com" false wTwoSubs).cmds := by
  have h := submodule_writes_and_sync "github.com" "gitlab.com" false wTwoSubs rfl rfl
  have hw := h.2.1 "submodule.m.url" "https://github.com/x/y" "https://gitlab.com/x/y"
    (by decide) (by decide) (by decide) (by decide)
  exact ⟨rfl, rfl, h.2.2.trans (by decide), hw.1⟩

/-! ### C1 — invalid regex pattern handling -/

/-- When every rewrite returns `None`, no config write is collected. -/
theorem changedWrites_nil_of_none (f r : String) (rx : Bool)
    (h : ∀ u, get_new_url u f r rx = none) :
    ∀ ls, changedWrites f r rx ls = [] := by
  intro ls
  induction ls with
  | nil => rfl
  | cons l rest ih =>
    unfold changedWrites
    rcases hsp : pySplitFirstSpace l with _ | kv <;> dsimp only
    · simp [ih]
    · rw [h kv.2]
      dsimp only
      simp [ih]

/-- When every rewrite returns `None`, the submodule sub-task issues at most
the listing command. -/
theorem subStep_cmds_of_none (f r : String) (rx hg : Bool) (ml : ExecOutcome)
    (h : ∀ u, get_new_url u f r rx = none) :
    (subStep f r rx hg ml).cmds = [] ∨ (subStep f r rx hg ml).cmds = [Cmd.modList] := by
  unfold subStep
  dsimp only
  split
  · split
    · have hs := subLines_eq_changedWrites f r rx (pySplitlines (pyStrip (run_command "git" ml).2.1))
      have hcw := changedWrites_nil_of_none f r rx h (pySplitlines (pyStrip (run_command "git" ml).2.1))
      split
      · rename_i hflag
        exact absurd hcw (hs.2.1 hflag)
      · right
        simp [hs.1, hcw]
    · right; rfl
  · left; rfl

/-- When every rewrite returns `None`, the origin sub-task only reads the
URL and, when the read succeeds, prints the current origin, the messages of
the rewrite computation and a skip, counting a skip. -/
theorem originStep_of_none (f r : String) (rx : Bool) (w : RepoWorld)
    (h : ∀ cur, get_new_url cur f r rx = none) :
    (originStep f r rx w).cmds = [Cmd.getUrl]
    ∧ (originStep f r rx w).succ = 0 ∧ (originStep f r rx w).fail = 0
    ∧ ((run_command "git" w.getUrlO).1 = 0 →
        (originStep f r rx w).skip = 1 ∧
        (originStep f r rx w).events =
          Ev.currentOrigin (pyStrip (run_command "git" w.getUrlO).2.1) ::
            (get_new_url_out (pyStrip (run_command "git" w.getUrlO).2.1) f r rx).2 ++
            [Ev.skipUnchanged]) := by
  unfold originStep
  dsimp only
  split
  · rw [h _]
    exact ⟨rfl, rfl, rfl, fun _ => ⟨rfl, rfl⟩⟩
  · rename_i h0
    exact ⟨rfl, rfl, rfl, fun hx => absurd hx h0⟩

/-- C1, counterexample.  The claim states that an invalid regex pattern is
reported exactly once, the run stops before processing any repository, and
no repository's origin URL is read.  With the invalid pattern `"("` and two
repositories, the code reports the regex error once per repository (twice in
total), reads each repository's origin URL (`getUrl` is issued for both) and
continues the run, counting each repository as a skip: `re.error` is caught
inside `get_new_url`, which `main` never calls before the per-repository
loop. -/
theorem regex_error_reported_per_repo_cex :
    (processAll "(" "x" true [wOriginA, wOriginB]).map
        (fun o => (o.events.count Ev.regexError, o.cmds, o.skip)) =
      [(1, [Cmd.getUrl], 1), (1, [Cmd.getUrl], 1)] := by
  decide

/-- C1 (amended): an invalid regex pattern is not a fatal input error
reported once before processing; instead each repository is still processed
and its origin URL read, the error is reported at each `get_new_url` call
(once per repository whose origin URL reads successfully, and again per
submodule URL examined), and no URL is modified anywhere: no set-url, fetch,
config write or sync command is ever issued, and every readable repository
is counted as a skip. -/
theorem invalid_regex_skips_all_updates :
    ∀ f r w, parsePattern f = none →
      (∀ u, Cmd.setUrl u ∉ (processRepo f r true w).cmds)
      ∧ Cmd.fetch ∉ (processRepo f r true w).cmds
      ∧ (∀ k u, Cmd.cfgModules k u ∉ (processRepo f r true w).cmds)
      ∧ (∀ k u, Cmd.cfgLocal k u ∉ (processRepo f r true w).cmds)
      ∧ Cmd.modSync ∉ (processRepo f r true w).cmds
      ∧ Cmd.getUrl ∈ (processRepo f r true w).cmds
      ∧ (processRepo f r true w).succ = 0
      ∧ (processRepo f r true w).fail = 0
      ∧ ((run_command "git" w.getUrlO).1 = 0 →
          Ev.regexError ∈ (processRepo f r true w).events ∧
          (processRepo f r true w).skip = 1) := by
  intro f r w hparse
  have hout : ∀ cur, get_new_url_out cur f r true = (none, [Ev.regexError]) := fun cur => by
    simp [get_new_url_out, hparse]
  have hnone : ∀ cur, get_new_url cur f r true = none := fun cur => by
    simp [get_new_url, hout cur]
  have horig := originStep_of_none f r true w hnone
  have hsub := subStep_cmds_of_none f r true w.hasGitmodules w.modListO hnone
  have hsubc := subStep_counters f r true w.hasGitmodules w.modListO
  have hcmds : (processRepo f r true w).cmds =
      (originStep f r true w).cmds ++ (subStep f r true w.hasGitmodules w.modListO).cmds := rfl
  have hnosub : ∀ c, c ∈ (processRepo f r true w).cmds →
      c = Cmd.getUrl ∨ c = Cmd.modList := by
    intro c hc
    rw [hcmds, horig.1] at hc
    rcases List.mem_append.1 hc with h | h
    · exact Or.inl (List.mem_singleton.1 h)
    · rcases hsub with hs | hs <;> rw [hs] at h
      · simp at h
      · exact Or.inr (List.mem_singleton.1 h)
  refine ⟨?_, ?_, ?_, ?_, ?_, ?_, ?_, ?_, ?_⟩
  · intro u hu
    rcases hnosub _ hu with h | h <;> exact Cmd.noConfusion h
  · intro hu
    rcases hnosub _ hu with h | h <;> exact Cmd.noConfusion h
  · intro k u hu
    rcases hnosub _ hu with h | h <;> exact Cmd.noConfusion h
  · intro k u hu
    rcases hnosub _ hu with h | h <;> exact Cmd.noConfusion h
  · intro hu
    rcases hnosub _ hu with h | h <;> exact Cmd.noConfusion h
  · rw [hcmds, horig.1]
    exact List.mem_append.2 (Or.inl (by simp))
  · have : (processRepo f r true w).succ =
        (originStep f r true w).succ + (subStep f r true w.hasGitmodules w.modListO).succ := rfl
    rw [this, horig.2.1, hsubc.1]
  · have : (processRepo f r true w).fail =
        (originStep f r true w).fail + (subStep f r true w.hasGitmodules w.modListO).fail := rfl
    rw [this, horig.2.2.1, hsubc.2.1]
  · intro h0
    have hev := horig.2.2.2 h0
    constructor
    · have : (processRepo f r true w).events =
          (originStep f r true w).events ++ (subStep f r true w.hasGitmodules w.modListO).events :=
        rfl
      rw [this, hev.2, hout]
      simp
    · have : (processRepo f r true w).skip =
          (originStep f r true w).skip + (subStep f r true w.hasGitmodules w.modListO).skip := rfl
      rw [this, hev.1, hsubc.2.2]

/-- C1, witness for the amended claim: on a concrete repository whose origin
URL reads successfully, the invalid pattern `"("` leads to a reported regex
error, a read of the origin URL, no success and a skip. -/
theorem invalid_regex_skips_all_updates_witness :
    parsePattern "(" = none
    ∧ (run_command "git" wOriginA.getUrlO).1 = 0
    ∧ Cmd.getUrl ∈ (processRepo "(" "x" true wOriginA).cmds
    ∧ Ev.regexError ∈ (processRepo "(" "x" true wOriginA).events
    ∧ (processRepo "(" "x" true wOriginA).succ = 0
    ∧ (processRepo "(" "x" true wOriginA).skip = 1 := by
  have h := invalid_regex_skips_all_updates "(" "x" wOriginA rfl
  exact ⟨rfl, rfl, h.2.2.2.2.2.1, (h.2.2.2.2.2.2.2.2 rfl).1, h.2.2.2.2.2.2.1,
    (h.2.2.2.2.2.2.2.2 rfl).2⟩

/-! ### C10 — totality of `run_command` and of the batch -/

/-- C10: every invocation through `run_command` returns a `(returncode,
stdout, stderr)` triple — a missing executable is mapped to return code 127,
any other execution exception to return code 1 with the message in stderr,
and a completed process to its own code and decoded output — and the batch
loop produces exactly one outcome per selected repository, so no
repository's failure can abort the batch. -/
theorem run_command_total_mapping :
    (∀ cmd0, run_command cmd0 ExecOutcome.fileNotFound =
      (127, "", "Command not found: " ++ cmd0))
    ∧ (∀ cmd0 m, run_command cmd0 (ExecOutcome.exn m) = (1, "", m))
    ∧ (∀ cmd0 c so se, run_command cmd0 (ExecOutcome.ok c so se) = (c, so, se))
    ∧ (∀ f r rx ws, (processAll f r rx ws).length = ws.length) :=
  ⟨fun _ => rfl, fun _ _ => rfl, fun _ _ _ _ => rfl,
    fun f r rx ws => by simp [processAll]⟩

/-! ### C9 — fallback discovery walk, deduplication and normalisation -/

/-- Unfolding of the walk at a directory node. -/
theorem walkRepos_eq (nm : String) (ds : List FsTree) (fs : List String) (pre : List String) :
    walkRepos (FsTree.dir nm ds fs) pre =
      (if hasGitEntry (FsTree.dir nm ds fs) = true then [pre] else []) ++
        walkChildren ds pre := by
  rw [walkRepos]
  simp [hasGitEntry]

/-- A path is produced under some child iff a non-`.git` child produces
it. -/
theorem walkChildren_mem (ds : List FsTree) (pre p : List String) :
    p ∈ walkChildren ds pre ↔
      ∃ c, c ∈ ds ∧ c.dname ≠ ".git" ∧ p ∈ walkRepos c (pre ++ [c.dname]) := by
  induction ds with
  | nil => simp [walkChildren]
  | cons d rest ih =>
    rw [walkChildren]
    rw [List.mem_append, ih]
    constructor
    · rintro (h | ⟨c, hc, hne, hp⟩)
      · split at h
        · simp at h
        · rename_i hne
          refine ⟨d, List.mem_cons_self d rest, ?_, h⟩
          intro he
          exact hne (by rw [he]; rfl)
      · exact ⟨c, List.mem_cons_of_mem d hc, hne, hp⟩
    · rintro ⟨c, hc, hne, hp⟩
      rcases List.mem_cons.1 hc with rfl | hc2
      · refine Or.inl ?_
        rw [if_neg ?_]
        · exact hp
        · intro hx
          exact hne (by simpa using hx)
      · exact Or.inr ⟨c, hc2, hne, hp⟩

/-- With distinct sibling names, looking a member up by its own name finds
it. -/
theorem find?_eq_of_nodup (ds : List FsTree) (c : FsTree)
    (hnd : (ds.map FsTree.dname).Nodup) (hc : c ∈ ds) :
    ds.find? (fun d => d.dname == c.dname) = some c := by
  induction ds with
  | nil => simp at hc
  | cons d rest ih =>
    rcases List.mem_cons.1 hc with rfl | hc2
    · simp [List.find?]
    · have hnd2 : (rest.map FsTree.dname).Nodup := (List.nodup_cons.1 hnd).2
      have hne : d.dname ≠ c.dname := by
        intro he
        exact (List.nodup_cons.1 hnd).1 (he ▸ List.mem_map_of_mem FsTree.dname hc2)
      rw [List.find?]
      rw [show (d.dname == c.dname) = false from beq_eq_false_iff_ne.2 hne]
      exact ih hnd2 hc2

/-- Decomposition of well-formedness over a node's children. -/
theorem wellFormedChildren_mem :
    ∀ ds : List FsTree, wellFormedChildren ds = true → ∀ c ∈ ds, wellFormedB c = true := by
  intro ds
  induction ds with
  | nil => intro _ c hc; simp at hc
  | cons d rest ih =>
    intro h c hc
    rw [wellFormedChildren] at h
    rw [Bool.and_eq_true] at h
    rcases h with ⟨h1, h2⟩
    rcases List.mem_cons.1 hc with rfl | hc2
    · exact h1
    · exact ih h2 c hc2

/-- Well-formedness of a node gives distinct sibling names and well-formed
children. -/
theorem wellFormedB_parts (nm : String) (ds : List FsTree) (fs : List String)
    (h : wellFormedB (FsTree.dir nm ds fs) = true) :
    (ds.map FsTree.dname).Nodup ∧ ∀ c ∈ ds, wellFormedB c = true := by
  rw [wellFormedB] at h
  rw [Bool.and_eq_true] at h
  rcases h with ⟨h1, h2⟩
  exact ⟨of_decide_eq_true h1, wellFormedChildren_mem ds h2⟩

/-- A child is smaller than its parent node. -/
theorem sizeOf_child_lt (nm : String) (ds : List FsTree) (fs : List String) (c : FsTree)
    (hc : c ∈ ds) : sizeOf c < sizeOf (FsTree.dir nm ds fs) := by
  have h1 : sizeOf c < sizeOf ds := List.sizeOf_lt_of_mem hc
  have h2 := FsTree.dir.sizeOf_spec nm ds fs
  omega

/-- The empty path points at the node itself. -/
theorem pathHasGit_nil (t : FsTree) : pathHasGit t [] = hasGitEntry t := by
  rcases t with ⟨nm, ds, fs⟩
  rfl

/-- Looking below a node goes through the child found by name. -/
theorem pathHasGit_cons (nm : String) (ds : List FsTree) (fs : List String) (x : String)
    (q : List String) :
    pathHasGit (FsTree.dir nm ds fs) (x :: q) =
      match ds.find? (fun d => d.dname == x) with
      | some c => pathHasGit c q
      | none => false := by
  cases hf : ds.find? (fun d => d.dname == x) <;> simp [pathHasGit, lookupPath, hf]

/-- Characterisation of the fallback walk, by strong induction on the tree
size: a path is reported iff no component is `.git` and the directory it
denotes directly contains a `.git` entry. -/
theorem walk_mem_aux :
    ∀ n : Nat, ∀ t : FsTree, sizeOf t < n → wellFormedB t = true →
      ∀ pre p, p ∈ walkRepos t pre ↔
        ∃ q, p = pre ++ q ∧ ".git" ∉ q ∧ pathHasGit t q = true := by
  intro n
  induction n with
  | zero => intro t h; omega
  | succ n ih =>
    intro t hsz hwf pre p
    rcases t with ⟨nm, ds, fs⟩
    rcases wellFormedB_parts nm ds fs hwf with ⟨hnd, hwfc⟩
    constructor
    · intro hp
      rw [walkRepos_eq] at hp
      rcases List.mem_append.1 hp with h | h
      · split at h
        · rename_i hgit
          refine ⟨[], by simpa using List.mem_singleton.1 h, by simp, ?_⟩
          rw [pathHasGit_nil]
          exact hgit
        · simp at h
      · rcases (walkChildren_mem ds pre p).1 h with ⟨c, hc, hne, hp2⟩
        have hszc : sizeOf c < n := by
          have := sizeOf_child_lt nm ds fs c hc
          omega
        rcases (ih c hszc (hwfc c hc) (pre ++ [c.dname]) p).1 hp2 with ⟨q', he, hng, hph⟩
        refine ⟨c.dname :: q', by rw [he]; simp, ?_, ?_⟩
        · simp only [List.mem_cons, not_or]
          exact ⟨fun hx => hne hx.symm, hng⟩
        · rw [pathHasGit_cons, find?_eq_of_nodup ds c hnd hc]
          exact hph
    · rintro ⟨q, rfl, hng, hph⟩
      rcases q with _ | ⟨x, q'⟩
      · rw [pathHasGit_nil] at hph
        rw [walkRepos_eq]
        refine List.mem_append.2 (Or.inl ?_)
        rw [if_pos hph]
        simp
      · rw [pathHasGit_cons] at hph
        rcases hf : ds.find? (fun d => d.dname == x) with _ | c <;> rw [hf] at hph
        · exact absurd hph (by simp)
        · have hc : c ∈ ds := List.mem_of_find?_eq_some hf
          have hx : c.dname = x := by
            have := List.find?_some hf
            exact eq_of_beq this
          have hng2 := hng
          simp only [List.mem_cons, not_or] at hng2
          have hxg : x ≠ ".git" := fun he => hng2.1 he.symm
          have hqg : ".git" ∉ q' := hng2.2
          have hszc : sizeOf c < n := by
            have := sizeOf_child_lt nm ds fs c hc
            omega
          have hmem := (ih c hszc (hwfc c hc) (pre ++ [x]) ((pre ++ [x]) ++ q')).2
            ⟨q', rfl, hqg, hph⟩
          rw [walkRepos_eq]
          refine List.mem_append.2 (Or.inr ((walkChildren_mem ds pre _).2 ⟨c, hc, ?_, ?_⟩))
          · rw [hx]
            intro he
            exact hxg he
          · rw [hx]
            have hassoc : pre ++ x :: q' = (pre ++ [x]) ++ q' := by simp
            rw [hassoc]
            exact hmem

/-- C9, counterexample.  The claim's "if and only if" fails for a directory
nested inside a pruned `.git` subtree: in `root/.git/hooks/inner/.git`, the
directory `inner` directly contains a `.git` entry but is never visited,
because the walk removes `.git` from `dirnames` and never descends into it;
the walk reports only the root. -/
theorem walk_inside_git_cex :
    pathHasGit tNested [".git", "hooks", "inner"] = true
    ∧ walkRepos tNested [] = [[]]
    ∧ (walkRepos tNested []).contains [".git", "hooks", "inner"] = false := by
  have hwalk : walkRepos tNested [] = [[]] := by
    simp [tNested, walkRepos, walkChildren, FsTree.dname]
  refine ⟨by decide, hwalk, by rw [hwalk]; decide⟩

/-- C9 (amended): in the fallback walk a directory is reported as a
repository root iff it directly contains a `.git` entry (subdirectory or
file) AND none of its path components below the scan root is named `.git`
(the walk never descends into a pruned `.git` subtree); and the discovered
list is path-normalised to absolute form and deduplicated before further
processing: the normalised list has no duplicates and contains exactly the
resolved discovered paths. -/
theorem fallback_walk_and_dedup (t : FsTree) (hw : wellFormedB t = true) :
    (∀ p, p ∈ walkRepos t [] ↔ (pathHasGit t p = true ∧ ".git" ∉ p))
    ∧ (∀ rootAbs repos, (normalizeRepos rootAbs repos).Nodup
        ∧ ∀ x, x ∈ normalizeRepos rootAbs repos ↔ x ∈ repos.map (fun p => rootAbs ++ p)) := by
  constructor
  · intro p
    rw [walk_mem_aux (sizeOf t + 1) t (by omega) hw [] p]
    constructor
    · rintro ⟨q, rfl, hng, hph⟩
      simpa using ⟨hph, hng⟩
    · rintro ⟨hph, hng⟩
      exact ⟨p, by simp, hng, hph⟩
  · intro rootAbs repos
    exact ⟨List.nodup_dedup _, fun x => List.mem_dedup⟩

/-- C9, witness: a repository marked by a `.git` file under a well-formed
tree is reported, matching the characterisation. -/
theorem fallback_walk_and_dedup_witness :
    wellFormedB tGitFile = true
    ∧ (["a"] ∈ walkRepos tGitFile [] ↔
        (pathHasGit tGitFile ["a"] = true ∧ ".git" ∉ (["a"] : List String))) := by
  have hwf : wellFormedB tGitFile = true := by
    simp [tGitFile, wellFormedB, wellFormedChildren, FsTree.dname]
  exact ⟨hwf, (fallback_walk_and_dedup tGitFile hwf).1 ["a"]⟩

end Convert
